import Mathlib

/-!
Verification of the query-caching and request-coalescing layer of the
AI-Tutor repository (`src/ai_engine_optimized.py`), against its
natural-language specification.

The development shallowly embeds:
  * `QueryCache._hash_key` — `"|".join(str(a) for a in args)` followed by
    `hashlib.md5(...).hexdigest()`; MD5 is implemented bit-faithfully over
    the UTF-8 bytes of the joined string, with 32-bit words represented as
    `Nat` reduced mod `2 ^ 32`.
  * the two backing-store variants — the Redis server is modelled as an
    association list from keys to `(payload, absolute-expiry)` pairs, the
    in-process `_mem_cache` dict as an association list from keys to
    `(payload, write-timestamp)` pairs.  Time is `ℚ` (Python's
    `time.time()` float clock).
  * the public cache operations `get` / `set` / `acquire_lock` /
    `release_lock` / `clear` / `get_cache_count`, including the bounded
    poll loop inside `get` and the `try/except` placement of the source
    (a call the source does not wrap can surface an error, modelled as
    `Except.error ()`; fault oracles say which individual Redis calls
    raise).
  * the `summarize_chapter` orchestration function, with document
    retrieval and the LLM invocation as `Except`-valued oracles.
-/

set_option maxRecDepth 200000

namespace AITutor

/-! ## Association-list stores

Models both the Redis keyspace and the Python dict `_mem_cache`:
a list of key/value pairs with at most one binding per key
(maintained by inserting via erase-then-cons). -/

/-- Lookup in an association list (first binding wins, as in a dict). -/
def slookup {α : Type} : List (String × α) → String → Option α
  | [], _ => none
  | (k', v) :: rest, k => if k' = k then some v else slookup rest k

/-- Remove every binding of key `k`. -/
def serase {α : Type} (l : List (String × α)) (k : String) : List (String × α) :=
  l.filter (fun p => p.1 != k)

/-- Insert (or overwrite) the binding of key `k`. -/
def sinsert {α : Type} (l : List (String × α)) (k : String) (v : α) : List (String × α) :=
  (k, v) :: serase l k

theorem slookup_serase_self {α : Type} (l : List (String × α)) (k : String) :
    slookup (serase l k) k = none := by
  induction l with
  | nil => simp [serase, slookup]
  | cons p rest ih =>
    obtain ⟨pk, pv⟩ := p
    by_cases h1 : pk = k
    · simpa [serase, h1] using ih
    · simpa [serase, slookup, h1] using ih

theorem slookup_serase_ne {α : Type} (l : List (String × α)) (k k' : String) (h : k' ≠ k) :
    slookup (serase l k) k' = slookup l k' := by
  induction l with
  | nil => simp [serase]
  | cons p rest ih =>
    obtain ⟨pk, pv⟩ := p
    by_cases h1 : pk = k
    · have h2 : pk ≠ k' := by
        intro hh
        exact h (hh ▸ h1)
      have h3 : ¬ k = k' := by
        intro hh
        exact h (hh ▸ h1 ▸ rfl)
      simp only [serase, List.filter_cons]
      simp only [serase] at ih
      simp [h1, slookup, h2, h3, ih]
    · by_cases h2 : pk = k'
      · simp [serase, List.filter_cons, h1, slookup, h2, h]
      · simp only [serase, List.filter_cons] at ih ⊢
        simp [h1, slookup, h2, ih]

theorem slookup_sinsert_self {α : Type} (l : List (String × α)) (k : String) (v : α) :
    slookup (sinsert l k v) k = some v := by
  simp [sinsert, slookup]

theorem slookup_sinsert_ne {α : Type} (l : List (String × α)) (k k' : String) (v : α)
    (h : k' ≠ k) : slookup (sinsert l k v) k' = slookup l k' := by
  have hkk : k ≠ k' := fun hh => h hh.symm
  simp [sinsert, slookup, hkk, slookup_serase_ne l k k' h]

/-! ## Key hasher (`QueryCache._hash_key`)

Source:
```
def _hash_key(self, *args) -> str:
    key_str = "|".join(str(arg) for arg in args)
    return hashlib.md5(key_str.encode()).hexdigest()
```
All call sites pass strings, for which `str` is the identity, so the
argument tuple is a `List String`.  `"|".join` is `joinArgs`; `.encode()`
is UTF-8 encoding; `hashlib.md5(...).hexdigest()` is `md5hex`. -/

/-- Python `"|".join(args)`. -/
def joinArgs : List String → String
  | [] => ""
  | [s] => s
  | s :: rest => s ++ "|" ++ joinArgs rest

/-- UTF-8 encoding of one code point (Python `str.encode()` per character). -/
def utf8Bytes (c : Char) : List Nat :=
  let n := c.toNat
  if n < 128 then [n]
  else if n < 2048 then [192 + n / 64, 128 + n % 64]
  else if n < 65536 then [224 + n / 4096, 128 + n / 64 % 64, 128 + n % 64]
  else [240 + n / 262144, 128 + n / 4096 % 64, 128 + n / 64 % 64, 128 + n % 64]

/-- UTF-8 bytes of a string. -/
def strBytes (s : String) : List Nat :=
  s.data.foldr (fun c acc => utf8Bytes c ++ acc) []

/-- `2 ^ 32`, the word modulus of MD5. -/
def w32 : Nat := 4294967296

/-- `2 ^ 32 - 1`, used as the XOR mask implementing bitwise NOT. -/
def mask32 : Nat := 4294967295

/-- 32-bit left rotation (inputs are first reduced mod `2 ^ 32`). -/
def rotl32 (x s : Nat) : Nat :=
  ((x % w32) * 2 ^ s) % w32 + (x % w32) / 2 ^ (32 - s)

/-- The 64 MD5 sine-derived round constants `K[i] = floor(abs(sin(i+1)) * 2^32)`. -/
def md5K : List Nat :=
  [3614090360, 3905402710, 606105819, 3250441966, 4118548399, 1200080426, 2821735955, 4249261313,
   1770035416, 2336552879, 4294925233, 2304563134, 1804603682, 4254626195, 2792965006, 1236535329,
   4129170786, 3225465664, 643717713, 3921069994, 3593408605, 38016083, 3634488961, 3889429448,
   568446438, 3275163606, 4107603335, 1163531501, 2850285829, 4243563512, 1735328473, 2368359562,
   4294588738, 2272392833, 1839030562, 4259657740, 2763975236, 1272893353, 4139469664, 3200236656,
   681279174, 3936430074, 3572445317, 76029189, 3654602809, 3873151461, 530742520, 3299628645,
   4096336452, 1126891415, 2878612391, 4237533241, 1700485571, 2399980690, 4293915773, 2240044497,
   1873313359, 4264355552, 2734768916, 1309151649, 4149444226, 3174756917, 718787259, 3951481745]

/-- The 64 MD5 per-round left-rotation amounts. -/
def md5S : List Nat :=
  [7, 12, 17, 22, 7, 12, 17, 22, 7, 12, 17, 22, 7, 12, 17, 22,
   5, 9, 14, 20, 5, 9, 14, 20, 5, 9, 14, 20, 5, 9, 14, 20,
   4, 11, 16, 23, 4, 11, 16, 23, 4, 11, 16, 23, 4, 11, 16, 23,
   6, 10, 15, 21, 6, 10, 15, 21, 6, 10, 15, 21, 6, 10, 15, 21]

/-- MD5 round mixing function (F, G, H, I depending on the round index). -/
def md5F (i b c d : Nat) : Nat :=
  if i < 16 then (b &&& c) ||| ((b ^^^ mask32) &&& d)
  else if i < 32 then (d &&& b) ||| ((d ^^^ mask32) &&& c)
  else if i < 48 then b ^^^ c ^^^ d
  else c ^^^ (b ||| (d ^^^ mask32))

/-- MD5 message-word index schedule. -/
def md5G (i : Nat) : Nat :=
  if i < 16 then i
  else if i < 32 then (5 * i + 1) % 16
  else if i < 48 then (3 * i + 5) % 16
  else (7 * i) % 16

/-- One of the 64 MD5 rounds applied to the state `(a, b, c, d)`. -/
def md5Step (M : List Nat) (st : Nat × Nat × Nat × Nat) (i : Nat) : Nat × Nat × Nat × Nat :=
  let f := (md5F i st.2.1 st.2.2.1 st.2.2.2 + st.1 + md5K.getD i 0 + M.getD (md5G i) 0) % w32
  (st.2.2.2, (st.2.1 + rotl32 f (md5S.getD i 0)) % w32, st.2.1, st.2.2.1)

/-- Process one 16-word block, adding the round output into the state mod `2 ^ 32`. -/
def md5Block (st : Nat × Nat × Nat × Nat) (M : List Nat) : Nat × Nat × Nat × Nat :=
  let r := (List.range 64).foldl (md5Step M) st
  ((st.1 + r.1) % w32, (st.2.1 + r.2.1) % w32, (st.2.2.1 + r.2.2.1) % w32,
   (st.2.2.2 + r.2.2.2) % w32)

/-- The 8 little-endian bytes of the 64-bit message bit length. -/
def leBytes8 (n : Nat) : List Nat :=
  [n % 256, n / 256 % 256, n / 65536 % 256, n / 16777216 % 256,
   n / 4294967296 % 256, n / 1099511627776 % 256,
   n / 281474976710656 % 256, n / 72057594037927936 % 256]

/-- MD5 padding: a `0x80` byte, zeros to 56 mod 64, then the bit length. -/
def padMsg (msg : List Nat) : List Nat :=
  msg ++ 128 :: List.replicate ((119 - msg.length % 64) % 64) 0 ++ leBytes8 (msg.length * 8)

/-- Group bytes into little-endian 32-bit words. -/
def toWords : List Nat → List Nat
  | b0 :: b1 :: b2 :: b3 :: rest =>
      (b0 + 256 * b1 + 65536 * b2 + 16777216 * b3) :: toWords rest
  | _ => []

/-- Split a byte list into 64-byte chunks; fuel-structured so the kernel can
reduce it (fuel is the list length, which bounds the chunk count). -/
def chunks64Aux : Nat → List Nat → List (List Nat)
  | 0, _ => []
  | _, [] => []
  | fuel + 1, b :: rest => ((b :: rest).take 64) :: chunks64Aux fuel ((b :: rest).drop 64)

/-- Split a byte list into 64-byte chunks. -/
def chunks64 (l : List Nat) : List (List Nat) :=
  chunks64Aux l.length l

/-- The four MD5 state words after digesting the whole (padded) message. -/
def md5Words (msg : List Nat) : Nat × Nat × Nat × Nat :=
  (chunks64 (padMsg msg)).foldl (fun st blk => md5Block st (toWords blk))
    (1732584193, 4023233417, 2562383102, 271733878)

/-- The 4 little-endian output bytes of one state word. -/
def outW (x : Nat) : List Nat := [x % 256, x / 256 % 256, x / 65536 % 256, x / 16777216 % 256]

/-- The 16 digest bytes of MD5. -/
def md5bytes (msg : List Nat) : List Nat :=
  outW (md5Words msg).1 ++ outW (md5Words msg).2.1 ++
  outW (md5Words msg).2.2.1 ++ outW (md5Words msg).2.2.2

/-- Lower-case hexadecimal digit. -/
def hexDigit (n : Nat) : Char :=
  if n < 10 then Char.ofNat (48 + n) else Char.ofNat (87 + n)

/-- Two hex characters per byte (`hexdigest` rendering). -/
def bytesToHex : List Nat → List Char
  | [] => []
  | b :: bs => hexDigit (b / 16 % 16) :: hexDigit (b % 16) :: bytesToHex bs

/-- `hashlib.md5(bytes).hexdigest()`. -/
def md5hex (msg : List Nat) : String :=
  String.mk (bytesToHex (md5bytes msg))

/-- `QueryCache._hash_key(*args)` for string arguments. -/
def hashKey (args : List String) : String :=
  md5hex (strBytes (joinArgs args))

/-- Well-formed argument tuples: nonempty, and no argument contains the
delimiter `"|"` (the spec's "delimiter guaranteed not to appear in
well-formed inputs"). -/
def WFArgs (args : List String) : Prop :=
  args ≠ [] ∧ ∀ s ∈ args, '|' ∉ s.data

instance (args : List String) : Decidable (WFArgs args) := by
  unfold WFArgs
  infer_instance

theorem bar_split (l₁ : List Char) (r₁ : List Char) (l₂ r₂ : List Char)
    (h₁ : '|' ∉ l₁) (h₂ : '|' ∉ l₂)
    (h : l₁ ++ '|' :: r₁ = l₂ ++ '|' :: r₂) : l₁ = l₂ ∧ r₁ = r₂ := by
  induction l₁ generalizing l₂ with
  | nil =>
    cases l₂ with
    | nil => simpa using h
    | cons c t =>
      simp only [List.nil_append, List.cons_append, List.cons.injEq] at h
      cases h.1
      exact absurd (List.mem_cons_self _ _) h₂
  | cons a t ih =>
    cases l₂ with
    | nil =>
      simp only [List.nil_append, List.cons_append, List.cons.injEq] at h
      cases h.1
      exact absurd (List.mem_cons_self _ _) h₁
    | cons b u =>
      simp only [List.cons_append, List.cons.injEq] at h
      obtain ⟨hab, ht⟩ := h
      have h₁' : '|' ∉ t := fun hm => h₁ (List.mem_cons_of_mem _ hm)
      have h₂' : '|' ∉ u := fun hm => h₂ (List.mem_cons_of_mem _ hm)
      obtain ⟨he, hr⟩ := ih u h₁' h₂' ht
      exact ⟨by rw [hab, he], hr⟩

theorem joinArgs_data_cons (s y : String) (rest : List String) :
    (joinArgs (s :: y :: rest)).data = s.data ++ '|' :: (joinArgs (y :: rest)).data := by
  show (s ++ "|" ++ joinArgs (y :: rest)).data = _
  simp [String.data_append]

theorem string_data_inj {s t : String} (h : s.data = t.data) : s = t := by
  cases s
  cases t
  exact congrArg String.mk h

/-- `"|".join` is injective on well-formed tuples: distinct tuples give
distinct joined strings. -/
theorem joinArgs_inj : ∀ (a b : List String), WFArgs a → WFArgs b →
    joinArgs a = joinArgs b → a = b := by
  intro a
  induction a with
  | nil => intro b wfa _ _; exact absurd rfl wfa.1
  | cons x ta ih =>
    intro b wfa wfb h
    cases b with
    | nil => exact absurd rfl wfb.1
    | cons y tb =>
      have hx : '|' ∉ x.data := wfa.2 x (List.mem_cons_self _ _)
      have hy : '|' ∉ y.data := wfb.2 y (List.mem_cons_self _ _)
      cases ta with
      | nil =>
        cases tb with
        | nil =>
          simp only [joinArgs] at h
          rw [h]
        | cons y2 t2 =>
          exfalso
          have hd : x.data = y.data ++ '|' :: (joinArgs (y2 :: t2)).data := by
            rw [show joinArgs [x] = x from rfl] at h
            rw [h]
            exact joinArgs_data_cons y y2 t2
          exact hx (hd ▸ List.mem_append_right _ (List.mem_cons_self _ _))
      | cons x2 t1 =>
        cases tb with
        | nil =>
          exfalso
          have hd : y.data = x.data ++ '|' :: (joinArgs (x2 :: t1)).data := by
            rw [show joinArgs [y] = y from rfl] at h
            rw [← h]
            exact joinArgs_data_cons x x2 t1
          exact hy (hd ▸ List.mem_append_right _ (List.mem_cons_self _ _))
        | cons y2 t2 =>
          have hd : x.data ++ '|' :: (joinArgs (x2 :: t1)).data
              = y.data ++ '|' :: (joinArgs (y2 :: t2)).data := by
            rw [← joinArgs_data_cons, ← joinArgs_data_cons, h]
          obtain ⟨hxy, hjoin⟩ := bar_split x.data _ y.data _ hx hy hd
          have hta : WFArgs (x2 :: t1) :=
            ⟨by simp, fun s hs => wfa.2 s (List.mem_cons_of_mem _ hs)⟩
          have htb : WFArgs (y2 :: t2) :=
            ⟨by simp, fun s hs => wfb.2 s (List.mem_cons_of_mem _ hs)⟩
          have := ih (y2 :: t2) hta htb (string_data_inj hjoin)
          rw [string_data_inj hxy, this]

/-! ### MD5 digest shape facts -/

theorem md5bytes_length (m : List Nat) : (md5bytes m).length = 16 := by
  simp [md5bytes, outW]

theorem md5bytes_lt (m : List Nat) : ∀ b ∈ md5bytes m, b < 256 := by
  intro b hb
  simp only [md5bytes, outW, List.mem_append, List.mem_cons, List.not_mem_nil, or_false] at hb
  rcases hb with ((h|h|h|h)|(h|h|h|h))|((h|h|h|h)|(h|h|h|h)) <;> omega

theorem bytesToHex_length (l : List Nat) : (bytesToHex l).length = 2 * l.length := by
  induction l with
  | nil => simp [bytesToHex]
  | cons b bs ih => simp [bytesToHex, ih]; omega

theorem md5hex_length (m : List Nat) : (md5hex m).length = 32 := by
  show (String.mk (bytesToHex (md5bytes m))).length = 32
  simp [String.length, bytesToHex_length, md5bytes_length]

/-- Value of a byte string read as a big-endian base-256 numeral. -/
def natOfBytes : List Nat → Nat
  | [] => 0
  | b :: bs => b * 256 ^ bs.length + natOfBytes bs

theorem natOfBytes_lt (l : List Nat) (h : ∀ b ∈ l, b < 256) :
    natOfBytes l < 256 ^ l.length := by
  induction l with
  | nil => simp [natOfBytes]
  | cons b bs ih =>
    have hb : b < 256 := h b (List.mem_cons_self _ _)
    have hv : natOfBytes bs < 256 ^ bs.length :=
      ih (fun x hx => h x (List.mem_cons_of_mem _ hx))
    have h1 : b * 256 ^ bs.length + natOfBytes bs < (b + 1) * 256 ^ bs.length := by
      calc b * 256 ^ bs.length + natOfBytes bs
          < b * 256 ^ bs.length + 256 ^ bs.length := by omega
        _ = (b + 1) * 256 ^ bs.length := by ring
    have h2 : (b + 1) * 256 ^ bs.length ≤ 256 * 256 ^ bs.length :=
      Nat.mul_le_mul_right _ (by omega)
    calc natOfBytes (b :: bs) < (b + 1) * 256 ^ bs.length := h1
      _ ≤ 256 * 256 ^ bs.length := h2
      _ = 256 ^ (b :: bs).length := by
          simp [List.length_cons, pow_succ]
          ring

theorem natOfBytes_inj : ∀ (l₁ l₂ : List Nat), (∀ b ∈ l₁, b < 256) → (∀ b ∈ l₂, b < 256) →
    l₁.length = l₂.length → natOfBytes l₁ = natOfBytes l₂ → l₁ = l₂ := by
  intro l₁
  induction l₁ with
  | nil =>
    intro l₂ _ _ hlen _
    cases l₂ with
    | nil => rfl
    | cons c cs => simp at hlen
  | cons b bs ih =>
    intro l₂ h₁ h₂ hlen he
    cases l₂ with
    | nil => simp at hlen
    | cons c cs =>
      have hlen' : bs.length = cs.length := by simpa using hlen
      have hv1 : natOfBytes bs < 256 ^ bs.length :=
        natOfBytes_lt bs (fun x hx => h₁ x (List.mem_cons_of_mem _ hx))
      have hv2 : natOfBytes cs < 256 ^ bs.length := by
        rw [hlen']
        exact natOfBytes_lt cs (fun x hx => h₂ x (List.mem_cons_of_mem _ hx))
      have he' : b * 256 ^ bs.length + natOfBytes bs
          = c * 256 ^ bs.length + natOfBytes cs := by
        simpa [natOfBytes, hlen'] using he
      have hK : 0 < 256 ^ bs.length := Nat.pos_pow_of_pos _ (by norm_num)
      have hbc : b = c := by
        have hdiv : (b * 256 ^ bs.length + natOfBytes bs) / 256 ^ bs.length
            = (c * 256 ^ bs.length + natOfBytes cs) / 256 ^ bs.length := by rw [he']
        rwa [Nat.mul_comm b, Nat.mul_comm c, Nat.mul_add_div hK, Nat.mul_add_div hK,
          Nat.div_eq_of_lt hv1, Nat.div_eq_of_lt hv2] at hdiv
      have hvv : natOfBytes bs = natOfBytes cs := by
        rw [hbc] at he'
        exact Nat.add_left_cancel he'
      rw [hbc, ih cs (fun x hx => h₁ x (List.mem_cons_of_mem _ hx))
        (fun x hx => h₂ x (List.mem_cons_of_mem _ hx)) hlen' hvv]

/-- The digest as a number below `256 ^ 16 = 2 ^ 128`. -/
def digestNat (msg : List Nat) : Nat := natOfBytes (md5bytes msg)

theorem digestNat_lt (msg : List Nat) : digestNat msg < 256 ^ 16 := by
  have := natOfBytes_lt (md5bytes msg) (md5bytes_lt msg)
  rwa [md5bytes_length] at this

theorem digestNat_eq_md5hex (m₁ m₂ : List Nat) (h : digestNat m₁ = digestNat m₂) :
    md5hex m₁ = md5hex m₂ := by
  have hb : md5bytes m₁ = md5bytes m₂ :=
    natOfBytes_inj _ _ (md5bytes_lt m₁) (md5bytes_lt m₂)
      (by rw [md5bytes_length, md5bytes_length]) h
  show String.mk (bytesToHex (md5bytes m₁)) = String.mk (bytesToHex (md5bytes m₂))
  rw [hb]

/-- The single-string tuple `["aa...a"]` with `n + 1` letters. -/
def aTuple (n : Nat) : List String := [String.mk (List.replicate (n + 1) 'a')]

theorem aTuple_wf (n : Nat) : WFArgs (aTuple n) := by
  constructor
  · simp [aTuple]
  · intro s hs
    simp only [aTuple, List.mem_singleton] at hs
    subst hs
    intro hm
    have := List.eq_of_mem_replicate hm
    simp at this

theorem aTuple_inj {m n : Nat} (h : aTuple m = aTuple n) : m = n := by
  simp only [aTuple, List.cons.injEq, and_true] at h
  have := congrArg (fun s => s.data.length) h
  simpa using this

/-! ## The backing stores

The Redis server is an association list from keys to
`(payload, absolute expiry time)`; a key is visible while `now < expiry`
(Redis `SET key val EX ttl` expires the key `ttl` seconds after the set).
Payloads distinguish a cached JSON blob (`data`, where `data none` stands
for a blob on which `json.loads` raises) from the `"1"` written under lock
keys by `SETNX`.

The in-process dict `self._mem_cache` is an association list from keys to
`(payload, write timestamp)`; `mval none` stands for the placeholder `{}`
that `acquire_lock` stores under `"lock:" + key` (call sites never read a
result from such a slot because derived cache keys — 32 hex characters —
and memory lock keys — `"lock:" + 32` characters — are disjoint).

Each individual Redis call can raise; a `Bool` fault oracle per call says
whether it does.  A faulted call leaves the store unchanged. -/

/-- Redis payload: a stored JSON string, or the `"1"` of a lock record. -/
inductive RVal (V : Type) where
  | data : Option V → RVal V
  | lockMark : RVal V
  deriving DecidableEq

/-- The Redis keyspace: key, payload, absolute expiry time. -/
def RState (V : Type) : Type := List (String × (RVal V × ℚ))

/-- In-memory value: `mval (some v)` a cached result, `mval none` the `{}`
placeholder stored under memory lock keys. -/
def MemCache (V : Type) : Type := List (String × (Option V × ℚ))

/-- Redis `GET` at time `t` (expired keys read as absent). -/
def redisGet {V : Type} (r : RState V) (t : ℚ) (k : String) : Option (RVal V) :=
  match slookup r k with
  | some (v, e) => if t < e then some v else none
  | none => none

/-- Redis `SET key val EX ttl` at time `t`. -/
def redisSetEx {V : Type} (r : RState V) (t : ℚ) (k : String) (v : RVal V) (ttl : ℚ) :
    RState V :=
  sinsert r k (v, t + ttl)

/-- Redis `DELETE key`. -/
def redisDel {V : Type} (r : RState V) (k : String) : RState V :=
  serase r k

/-- Redis `SET key val NX EX ttl`: atomically create the key if absent
(expired keys count as absent); returns whether this caller created it. -/
def redisSetNxEx {V : Type} (r : RState V) (t : ℚ) (k : String) (v : RVal V) (ttl : ℚ) :
    Bool × RState V :=
  if (redisGet r t k).isSome then (false, r) else (true, redisSetEx r t k v ttl)

/-- Number of live keys with the given prefix (Redis `KEYS prefix*`). -/
def redisCountPrefix {V : Type} (r : RState V) (t : ℚ) (p : String) : Nat :=
  (r.filter (fun e => p.isPrefixOf e.1 && decide (t < e.2.2))).length

/-- Delete every key with the given prefix. -/
def redisDelPrefix {V : Type} (r : RState V) (p : String) : RState V :=
  r.filter (fun e => !(p.isPrefixOf e.1))

/-! ## The `QueryCache` object

`use_redis` is fixed at construction (`__init__` pings Redis and falls back
to the memory cache on failure); `_mem_cache` is the in-process dict. -/

/-- The mutable fields of a `QueryCache` (the Redis server state is passed
separately to each operation, since it is shared across processes). -/
structure Cache (V : Type) where
  ttl_seconds : ℚ
  mem : MemCache V
  useRedis : Bool

/-- `self._redis_key(key)`. -/
def redisKeyOf (k : String) : String := "ai_cache:" ++ k

/-- The Redis lock key derived in `get`/`set`/`acquire_lock`/`release_lock`. -/
def redisLockKeyOf (k : String) : String := "ai_cache:" ++ k ++ ":lock"

/-- The memory-cache lock key `"lock:" + key` of the local fallback. -/
def memLockKeyOf (k : String) : String := "lock:" ++ k

/-- Decoding a fetched Redis payload (`json.loads` inside `try/except`):
a well-formed blob yields its value, an undecodable blob yields `None`.
(A lock payload under a cache key cannot arise from the cache's own
operations; it is mapped to `None`.) -/
def decodeRVal {V : Type} : RVal V → Option V
  | RVal.data o => o
  | RVal.lockMark => none

/-- The poll loop inside `QueryCache.get` (source lines 122-138):

```
lock_key = rk + ":lock"
waited = 0.0
poll_interval = 0.5
while waited < lock_timeout:
    val = self._redis.get(rk)
    if val: ...
    if not self._redis.exists(lock_key):
        break
    time.sleep(poll_interval)
    waited += poll_interval
```

`i` counts completed half-second sleeps, so the iteration at index `i`
runs at time `t + i / 2` and the loop condition `waited < lock_timeout`
is `i < 2 * lock_timeout`; `fuel` is the number of loop iterations still
allowed (`2 * lock_timeout - i` at every call site), consumed structurally
so the kernel can evaluate the loop.  `renv i` is the Redis keyspace the
iteration at index `i` observes (other workers mutate it concurrently);
`fg i` / `fe i` say whether that iteration's unprotected `GET` / `EXISTS`
raise.  Returns the result and the final iteration index. -/
def pollLoop {V : Type} (rk lockKey : String) (t : ℚ) (renv : Nat → RState V)
    (fg fe : Nat → Bool) : Nat → Nat → Except Unit (Option V) × Nat
  | 0, i => (Except.ok none, i)
  | fuel + 1, i =>
    if fg i then (Except.error (), i)
    else
      match redisGet (renv i) (t + i / 2) rk with
      | some rv => (Except.ok (decodeRVal rv), i)
      | none =>
        if fe i then (Except.error (), i)
        else if (redisGet (renv i) (t + i / 2) lockKey).isSome then
          pollLoop rk lockKey t renv fg fe fuel (i + 1)
        else (Except.ok none, i)

/-- `QueryCache.get(*args, wait_for_result, lock_timeout)`.

In the Redis variant the initial `GET` (line 115) and the poll loop's
`GET`/`EXISTS` are *not* wrapped in `try/except`, so a store fault there
surfaces as `Except.error ()`; only `json.loads` failures are caught
(yielding `None`).  `renv 0` is the keyspace the initial `GET` observes,
`f0` whether it raises.  The local variant reads `_mem_cache`, deleting
the entry if it has expired (lazy eviction). -/
def cacheGet {V : Type} (c : Cache V) (t : ℚ) (args : List String)
    (wait : Bool) (lockTimeout : Nat) (f0 : Bool) (renv : Nat → RState V)
    (fg fe : Nat → Bool) : Except Unit (Option V) × Cache V :=
  let key := hashKey args
  if c.useRedis then
    let rk := redisKeyOf key
    if f0 then (Except.error (), c)
    else
      match redisGet (renv 0) t rk with
      | some rv => (Except.ok (decodeRVal rv), c)
      | none =>
        if wait then
          ((pollLoop rk (redisLockKeyOf key) t renv fg fe (2 * lockTimeout) 0).1, c)
        else (Except.ok none, c)
  else
    match slookup c.mem key with
    | some (mv, ts) =>
      if t - ts < c.ttl_seconds then (Except.ok mv, c)
      else (Except.ok none, { c with mem := serase c.mem key })
    | none => (Except.ok none, c)

/-- `QueryCache.set(result, *args)`.

Redis variant: `SET rk json EX ttl` then `DELETE rk:lock`, both inside one
`try`; if either raises, the handler falls back to a memory-cache write
(note a fault in the `DELETE` leaves the successful `SET` in place).
Local variant: write `(result, now)` into the dict — the memory lock key
is *not* touched. -/
def cacheSet {V : Type} (c : Cache V) (r : RState V) (t : ℚ) (result : V)
    (args : List String) (fSet fDel : Bool) : Cache V × RState V :=
  let key := hashKey args
  if c.useRedis then
    if fSet then
      ({ c with mem := sinsert c.mem key (some result, t) }, r)
    else
      let r1 := redisSetEx r t (redisKeyOf key) (RVal.data (some result)) c.ttl_seconds
      if fDel then
        ({ c with mem := sinsert c.mem key (some result, t) }, r1)
      else (c, redisDel r1 (redisLockKeyOf key))
  else
    ({ c with mem := sinsert c.mem key (some result, t) }, r)

/-- `QueryCache.acquire_lock(*args, lock_ttl)`.

Redis variant: `SET lock_key "1" NX EX lock_ttl` inside `try`; a raised
call yields `False`.  Local variant: presence check on `"lock:" + key`
(no expiry check — `lock_ttl` is ignored), then store `({}, now)`. -/
def cacheAcquireLock {V : Type} (c : Cache V) (r : RState V) (t : ℚ)
    (args : List String) (lockTtl : ℚ) (fault : Bool) : Bool × Cache V × RState V :=
  let key := hashKey args
  if c.useRedis then
    if fault then (false, c, r)
    else
      let res := redisSetNxEx r t (redisLockKeyOf key) RVal.lockMark lockTtl
      (res.1, c, res.2)
  else
    match slookup c.mem (memLockKeyOf key) with
    | some _ => (false, c, r)
    | none => (true, { c with mem := sinsert c.mem (memLockKeyOf key) (none, t) }, r)

/-- `QueryCache.release_lock(*args)`: delete the lock record; a Redis fault
is swallowed (`except: pass`). -/
def cacheReleaseLock {V : Type} (c : Cache V) (r : RState V)
    (args : List String) (fault : Bool) : Cache V × RState V :=
  let key := hashKey args
  if c.useRedis then
    if fault then (c, r) else (c, redisDel r (redisLockKeyOf key))
  else
    match slookup c.mem (memLockKeyOf key) with
    | some _ => ({ c with mem := serase c.mem (memLockKeyOf key) }, r)
    | none => (c, r)

/-- `QueryCache.clear()`: best-effort deletion of the `ai_cache:*` keys
(faults swallowed), then the in-memory dict is cleared unconditionally. -/
def cacheClear {V : Type} (c : Cache V) (r : RState V) (fault : Bool) :
    Cache V × RState V :=
  if c.useRedis then
    ({ c with mem := [] }, if fault then r else redisDelPrefix r "ai_cache:")
  else ({ c with mem := [] }, r)

/-- `QueryCache.get_cache_count()`: number of `ai_cache:*` keys; on a Redis
fault it falls back to the in-memory dict's size. -/
def cacheGetCount {V : Type} (c : Cache V) (r : RState V) (t : ℚ) (fault : Bool) : Nat :=
  if c.useRedis then
    if fault then c.mem.length else redisCountPrefix r t "ai_cache:"
  else c.mem.length

/-! ## The `summarize_chapter` orchestration function

Modelled as a single-worker trace at time `t` over one Redis keyspace `r`
(so each internal `get` observes the constant environment `fun i => r`).
Data the core treats as opaque is parameterized: `truthyV` is Python
truthiness of a cached value (`if cached:`), `est` is
`estimate_tokens`, documents are their `page_content` strings, and the
retrieval / LLM calls are `Except`-valued oracles — `Except.error ()`
means that collaborator raised. -/

/-- The fault and collaborator oracles of one `summarize_chapter` run. -/
structure SumOracles (V : Type) where
  fGetA0 : Bool
  fGetAg : Nat → Bool
  fGetAe : Nat → Bool
  fAcq : Bool
  fGetB0 : Bool
  fGetBg : Nat → Bool
  fGetBe : Nat → Bool
  fSet : Bool
  fSetDel : Bool
  fRel : Bool
  fetchDocs : Except Unit (List String)
  llmResp : Except Unit V

/-- Python truthiness of `cached` for an optional value. -/
def optTruthy {V : Type} (truthyV : V → Bool) : Option V → Bool
  | none => false
  | some v => truthyV v

/-- Python `str.strip()`: drop whitespace from both ends. -/
def pyStrip (s : String) : String :=
  String.mk (((s.data.dropWhile Char.isWhitespace).reverse.dropWhile
    Char.isWhitespace).reverse)

/-- Stable descending insertion by string length (`sort(key=len, reverse=True)`). -/
def insertDesc (d : String) : List String → List String
  | [] => [d]
  | x :: rest => if x.length ≤ d.length then d :: x :: rest else x :: insertDesc d rest

/-- Sort documents by length, longest first. -/
def sortByLenDesc : List String → List String
  | [] => []
  | d :: rest => insertDesc d (sortByLenDesc rest)

/-- Greedy selection of documents until the 10000-token budget would be
exceeded (`if token_total + t > 10000: break`). -/
def selectDocs (est : String → Nat) : List String → Nat → List String
  | [], _ => []
  | d :: rest, tot =>
    if 10000 < tot + est d then [] else d :: selectDocs est rest (tot + est d)

/-- The part of `summarize_chapter` from document fetching onward
(source lines 333-367).  The fetch and the document selection sit *before*
the `try`; the early no-content return calls `set` but not
`release_lock`; the `try/finally` around the LLM call releases the lock
(when held) on both the success and the exception path. -/
def sumBody {V : Type} (est : String → Nat) (noContent : V) (c : Cache V)
    (r : RState V) (t : ℚ) (q : String) (o : SumOracles V) (gotLock : Bool) :
    Except Unit V × Cache V × RState V :=
  match o.fetchDocs with
  | Except.error e => (Except.error e, c, r)
  | Except.ok docs =>
    let cleaned := sortByLenDesc (docs.filter (fun d => 50 < (pyStrip d).length))
    let selected := selectDocs est cleaned 0
    if selected.isEmpty then
      let s := cacheSet c r t noContent ["summarize", q] o.fSet o.fSetDel
      (Except.ok noContent, s.1, s.2)
    else
      match o.llmResp with
      | Except.error e =>
        let s := if gotLock then cacheReleaseLock c r ["summarize", q] o.fRel else (c, r)
        (Except.error e, s.1, s.2)
      | Except.ok resp =>
        let s := cacheSet c r t resp ["summarize", q] o.fSet o.fSetDel
        let s2 := if gotLock then cacheReleaseLock s.1 s.2 ["summarize", q] o.fRel else s
        (Except.ok resp, s2.1, s2.2)

/-- `summarize_chapter` after the initial cache check: acquire the
coalescing lock; a loser re-polls the cache and, if still empty, proceeds
to compute without the lock. -/
def sumAfterCache {V : Type} (truthyV : V → Bool) (est : String → Nat) (noContent : V)
    (c : Cache V) (r : RState V) (t : ℚ) (q : String) (o : SumOracles V) :
    Except Unit V × Cache V × RState V :=
  let a := cacheAcquireLock c r t ["summarize", q] 30 o.fAcq
  if a.1 then sumBody est noContent a.2.1 a.2.2 t q o true
  else
    match cacheGet a.2.1 t ["summarize", q] true 30 o.fGetB0 (fun _ => a.2.2)
        o.fGetBg o.fGetBe with
    | (Except.error e, c3) => (Except.error e, c3, a.2.2)
    | (Except.ok cached2, c3) =>
      if h : optTruthy truthyV cached2 then
        (Except.ok (cached2.get (by cases cached2 <;> simp [optTruthy] at h ⊢)), c3, a.2.2)
      else sumBody est noContent c3 a.2.2 t q o false

/-- `summarize_chapter(chapter_query)` (source lines 315-367). -/
def summarizeChapter {V : Type} (truthyV : V → Bool) (est : String → Nat) (noContent : V)
    (c : Cache V) (r : RState V) (t : ℚ) (q : String) (o : SumOracles V) :
    Except Unit V × Cache V × RState V :=
  match cacheGet c t ["summarize", q] true 30 o.fGetA0 (fun _ => r) o.fGetAg o.fGetAe with
  | (Except.error e, c1) => (Except.error e, c1, r)
  | (Except.ok cached, c1) =>
    if h : optTruthy truthyV cached then
      (Except.ok (cached.get (by cases cached <;> simp [optTruthy] at h ⊢)), c1, r)
    else sumAfterCache truthyV est noContent c1 r t q o

/-- "The lock record for this argument tuple is absent" in whichever store
variant the cache is using (nobody holds, or is blocked by, the
coalescing lock). -/
def lockFree {V : Type} (c : Cache V) (r : RState V) (t : ℚ) (args : List String) : Prop :=
  if c.useRedis then redisGet r t (redisLockKeyOf (hashKey args)) = none
  else slookup c.mem (memLockKeyOf (hashKey args)) = none

/-! ## Helper lemmas -/

theorem redisKey_ne_lockKey (k : String) : redisKeyOf k ≠ redisLockKeyOf k := by
  intro h
  have := congrArg String.length h
  simp only [redisKeyOf, redisLockKeyOf, String.length_append,
    show ("ai_cache:" : String).length = 9 from by decide,
    show (":lock" : String).length = 5 from by decide] at this
  omega

theorem lockKey_ne_redisKey (k : String) : redisLockKeyOf k ≠ redisKeyOf k :=
  fun h => redisKey_ne_lockKey k h.symm

theorem memLockKey_ne_key (k : String) : memLockKeyOf k ≠ k := by
  intro h
  have := congrArg String.length h
  simp only [memLockKeyOf, String.length_append,
    show ("lock:" : String).length = 5 from by decide] at this
  omega

theorem key_ne_memLockKey (k : String) : k ≠ memLockKeyOf k :=
  fun h => memLockKey_ne_key k h.symm

theorem redisGet_of_slookup_none {V : Type} (r : RState V) (t : ℚ) (k : String)
    (h : slookup r k = none) : redisGet r t k = none := by
  simp [redisGet, h]

theorem redisGet_sinsert_self {V : Type} (r : RState V) (t' : ℚ) (k : String)
    (v : RVal V) (e : ℚ) :
    redisGet (sinsert r k (v, e)) t' k = if t' < e then some v else none := by
  simp [redisGet, slookup_sinsert_self]

theorem redisGet_sinsert_ne {V : Type} (r : RState V) (t' : ℚ) (k k' : String)
    (v : RVal V) (e : ℚ) (h : k' ≠ k) :
    redisGet (sinsert r k (v, e)) t' k' = redisGet r t' k' := by
  simp [redisGet, slookup_sinsert_ne _ _ _ _ h]

theorem redisGet_serase_self {V : Type} (r : RState V) (t' : ℚ) (k : String) :
    redisGet (serase r k) t' k = none := by
  simp [redisGet, slookup_serase_self]

theorem redisGet_serase_ne {V : Type} (r : RState V) (t' : ℚ) (k k' : String)
    (h : k' ≠ k) : redisGet (serase r k) t' k' = redisGet r t' k' := by
  simp [redisGet, slookup_serase_ne _ _ _ h]

/-- One poll iteration breaks out (entry absent, lock record absent):
the waiter stops deferring and lets the caller proceed. -/
theorem pollLoop_break {V : Type} (rk lockKey : String) (t : ℚ) (renv : Nat → RState V)
    (fg fe : Nat → Bool) (fuel i : Nat) (hfg : fg i = false)
    (hrk : redisGet (renv i) (t + i / 2) rk = none) (hfe : fe i = false)
    (hlk : redisGet (renv i) (t + i / 2) lockKey = none) :
    pollLoop rk lockKey t renv fg fe fuel i = (Except.ok none, i) := by
  cases fuel with
  | zero => simp [pollLoop]
  | succ n => simp [pollLoop, hfg, hrk, hfe, hlk]

/-- `get` in the shared variant when the entry is absent and nobody holds
the lock: an immediate miss (the poll breaks out at its first iteration). -/
theorem cacheGet_shared_none {V : Type} (c : Cache V) (t : ℚ) (args : List String)
    (w : Bool) (lt : Nat) (renv : Nat → RState V) (fg fe : Nat → Bool)
    (hR : c.useRedis = true)
    (hrk : redisGet (renv 0) t (redisKeyOf (hashKey args)) = none)
    (hfg : fg 0 = false) (hfe : fe 0 = false)
    (hlk : redisGet (renv 0) t (redisLockKeyOf (hashKey args)) = none) :
    cacheGet c t args w lt false renv fg fe = (Except.ok none, c) := by
  have h0 : (t + (0 : Nat) / 2 : ℚ) = t := by norm_num
  have hpb := pollLoop_break (redisKeyOf (hashKey args)) (redisLockKeyOf (hashKey args))
    t renv fg fe (2 * lt) 0 hfg (by rwa [h0]) hfe (by rwa [h0])
  cases w with
  | false => simp [cacheGet, hR, hrk]
  | true => simp [cacheGet, hR, hrk, hpb]

/-- `get` in the shared variant when the entry is present and decodable. -/
theorem cacheGet_shared_hit {V : Type} (c : Cache V) (t : ℚ) (args : List String)
    (w : Bool) (lt : Nat) (renv : Nat → RState V) (fg fe : Nat → Bool) (v : V)
    (hR : c.useRedis = true)
    (hrk : redisGet (renv 0) t (redisKeyOf (hashKey args)) = some (RVal.data (some v))) :
    cacheGet c t args w lt false renv fg fe = (Except.ok (some v), c) := by
  simp [cacheGet, hR, hrk, decodeRVal]

/-- `get` in the local variant when the dict has no entry for the key. -/
theorem cacheGet_local_none {V : Type} (c : Cache V) (t : ℚ) (args : List String)
    (w : Bool) (lt : Nat) (f0 : Bool) (renv : Nat → RState V) (fg fe : Nat → Bool)
    (hR : c.useRedis = false)
    (hmem : slookup c.mem (hashKey args) = none) :
    cacheGet c t args w lt f0 renv fg fe = (Except.ok none, c) := by
  simp [cacheGet, hR, hmem]

/-- `get` in the local variant on a fresh entry. -/
theorem cacheGet_local_hit {V : Type} (c : Cache V) (t : ℚ) (args : List String)
    (w : Bool) (lt : Nat) (f0 : Bool) (renv : Nat → RState V) (fg fe : Nat → Bool)
    (mv : Option V) (ts : ℚ) (hR : c.useRedis = false)
    (hmem : slookup c.mem (hashKey args) = some (mv, ts))
    (hfresh : t - ts < c.ttl_seconds) :
    cacheGet c t args w lt f0 renv fg fe = (Except.ok mv, c) := by
  simp [cacheGet, hR, hmem, hfresh]

/-- One poll iteration finds the (decodable) entry and returns it. -/
theorem pollLoop_found {V : Type} (rk lockKey : String) (t : ℚ) (renv : Nat → RState V)
    (fg fe : Nat → Bool) (fuel i : Nat) (v : V) (hfuel : 0 < fuel) (hfg : fg i = false)
    (hrk : redisGet (renv i) (t + i / 2) rk = some (RVal.data (some v))) :
    pollLoop rk lockKey t renv fg fe fuel i = (Except.ok (some v), i) := by
  cases fuel with
  | zero => omega
  | succ n => simp [pollLoop, hfg, hrk, decodeRVal]

/-- The final poll index never exceeds start index plus fuel: with fuel
`2 * lock_timeout` and half-second sleeps, total wait is at most
`lock_timeout` seconds. -/
theorem pollLoop_index_le {V : Type} (rk lockKey : String) (t : ℚ) (renv : Nat → RState V)
    (fg fe : Nat → Bool) : ∀ (fuel i : Nat),
    (pollLoop rk lockKey t renv fg fe fuel i).2 ≤ i + fuel := by
  intro fuel
  induction fuel with
  | zero => intro i; simp [pollLoop]
  | succ n ih =>
    intro i
    simp only [pollLoop]
    by_cases h1 : fg i = true
    · simp [h1]
    · simp only [Bool.not_eq_true] at h1
      simp only [h1, Bool.false_eq_true, if_false]
      cases hget : redisGet (renv i) (t + i / 2) rk with
      | some rv => simp
      | none =>
        by_cases h2 : fe i = true
        · simp [h2]
        · simp only [Bool.not_eq_true] at h2
          simp only [h2, Bool.false_eq_true, if_false]
          by_cases h3 : (redisGet (renv i) (t + i / 2) lockKey).isSome = true
          · simp only [h3, if_true]
            have := ih (i + 1)
            omega
          · simp [h3]

/-- If throughout the window the entry never appears and the lock record
stays live (and no store call raises), the poll runs the whole window and
returns `None` — the caller then proceeds to compute. -/
theorem pollLoop_timeout {V : Type} (rk lockKey : String) (t : ℚ) (renv : Nat → RState V)
    (fg fe : Nat → Bool) : ∀ (fuel i : Nat),
    (∀ j, j < i + fuel → i ≤ j → fg j = false ∧ fe j = false ∧
      redisGet (renv j) (t + j / 2) rk = none ∧
      (redisGet (renv j) (t + j / 2) lockKey).isSome = true) →
    pollLoop rk lockKey t renv fg fe fuel i = (Except.ok none, i + fuel) := by
  intro fuel
  induction fuel with
  | zero => intro i _; simp [pollLoop]
  | succ n ih =>
    intro i h
    obtain ⟨hfg, hfe, hrk, hlk⟩ := h i (by omega) (by omega)
    simp only [pollLoop, hfg, Bool.false_eq_true, if_false, hrk, hfe, hlk, if_true]
    have := ih (i + 1) (fun j hj1 hj2 => h j (by omega) (by omega))
    rw [this]
    congr 1
    omega

/-! ## Concrete instances used by witnesses and counterexamples -/

/-- A shared-store-variant cache with ttl 600 (the instantiation
`QueryCache(ttl_seconds=600, redis_url=...)` with a reachable Redis). -/
def cShared : Cache String := { ttl_seconds := 600, mem := [], useRedis := true }

/-- A local-variant cache with ttl 600 (no `REDIS_URL`, or ping failed). -/
def cLocal : Cache String := { ttl_seconds := 600, mem := [], useRedis := false }

/-- The all-clear fault oracle for a `Nat`-indexed family of store calls. -/
def noF : Nat → Bool := fun _ => false

/-! ## Claim C1 — mutual exclusion of the coalescing lock -/

/-- Claim C1: for every key, when no live lock record exists, an
`acquire_lock` call returns `true`, and every further `acquire_lock` for
the same key on the resulting state returns `false` while the lock is
live — throughout the `lock_ttl` window in the shared-store variant, and
at every later time in the local variant (whose lock never expires), so
of two back-to-back callers exactly the first wins. -/
theorem C1_lock_mutual_exclusion {V : Type} (c : Cache V) (r : RState V)
    (t : ℚ) (args : List String) (lockTtl : ℚ) (hpos : 0 < lockTtl)
    (hfree : lockFree c r t args) :
    (cacheAcquireLock c r t args lockTtl false).1 = true ∧
    (∀ t2 : ℚ, t ≤ t2 → t2 < t + lockTtl →
      (cacheAcquireLock (cacheAcquireLock c r t args lockTtl false).2.1
        (cacheAcquireLock c r t args lockTtl false).2.2 t2 args lockTtl false).1 = false) ∧
    (c.useRedis = false → ∀ t2 : ℚ,
      (cacheAcquireLock (cacheAcquireLock c r t args lockTtl false).2.1
        (cacheAcquireLock c r t args lockTtl false).2.2 t2 args lockTtl false).1 = false) := by
  by_cases hR : c.useRedis
  · simp only [lockFree, hR, if_true] at hfree
    refine ⟨?_, ?_, ?_⟩
    · simp [cacheAcquireLock, hR, redisSetNxEx, hfree]
    · intro t2 h1 h2
      simp [cacheAcquireLock, hR, redisSetNxEx, hfree, redisSetEx,
        redisGet_sinsert_self, h2]
    · intro hF
      rw [hF] at hR
      simp at hR
  · simp only [Bool.not_eq_true] at hR
    simp only [lockFree, hR, Bool.false_eq_true, if_false] at hfree
    refine ⟨?_, ?_, ?_⟩
    · simp [cacheAcquireLock, hR, hfree]
    · intro t2 _ _
      simp [cacheAcquireLock, hR, hfree, slookup_sinsert_self]
    · intro _ t2
      simp [cacheAcquireLock, hR, hfree, slookup_sinsert_self]

/-- Witness for C1 at concrete inputs, in both store variants. -/
theorem C1_lock_mutual_exclusion_witness :
    ((0:ℚ) < 30 ∧ lockFree cShared [] 0 ["summarize", "2"] ∧
      (cacheAcquireLock cShared [] 0 ["summarize", "2"] 30 false).1 = true) ∧
    ((0:ℚ) < 30 ∧ lockFree cLocal [] 0 ["summarize", "2"] ∧
      (cacheAcquireLock cLocal [] 0 ["summarize", "2"] 30 false).1 = true) :=
  ⟨⟨by norm_num, by simp [lockFree, cShared, redisGet, slookup],
    (C1_lock_mutual_exclusion cShared [] 0 ["summarize", "2"] 30 (by norm_num)
      (by simp [lockFree, cShared, redisGet, slookup])).1⟩,
   ⟨by norm_num, by simp [lockFree, cLocal, slookup],
    (C1_lock_mutual_exclusion cLocal [] 0 ["summarize", "2"] 30 (by norm_num)
      (by simp [lockFree, cLocal, slookup])).1⟩⟩

/-! ## Claim C2 — `set` releases the coalescing lock -/

/-- The state after the local-variant trace `acquire_lock; set`: the claim
expects the lock to be gone, but `set`'s local branch only writes the
entry key. -/
def c2AfterAcquire : Bool × Cache String × RState String :=
  cacheAcquireLock cLocal [] 0 ["summarize", "2"] 30 false

/-- `set("v", "summarize", "2")` on the state where the lock is held. -/
def c2AfterSet : Cache String × RState String :=
  cacheSet c2AfterAcquire.2.1 c2AfterAcquire.2.2 1 "v" ["summarize", "2"] false false

/-- Claim C2 as stated is false: in the local in-memory variant, `set`
does not remove the lock record, so the subsequent `acquire_lock` returns
`false`, not `true`. -/
theorem C2_set_releases_lock_cex :
    c2AfterAcquire.1 = true ∧
    (cacheAcquireLock c2AfterSet.1 c2AfterSet.2 2 ["summarize", "2"] 30 false).1 = false := by
  constructor
  · decide
  · decide

/-- Claim C2 (amended): in the shared-store variant (with the store write
succeeding) `set` deletes the lock record, so a subsequent fault-free
`acquire_lock` returns `true`; in the local in-memory variant `set`
leaves the lock record in place, so while the lock is held a subsequent
`acquire_lock` still returns `false` (only `release_lock` frees it). -/
theorem C2_set_releases_lock_amended {V : Type} (c : Cache V) (r : RState V)
    (t t2 : ℚ) (v : V) (args : List String) (lockTtl : ℚ) :
    (c.useRedis = true →
      redisGet (cacheSet c r t v args false false).2 t2 (redisLockKeyOf (hashKey args)) = none ∧
      (cacheAcquireLock (cacheSet c r t v args false false).1
        (cacheSet c r t v args false false).2 t2 args lockTtl false).1 = true) ∧
    (c.useRedis = false → ∀ x, slookup c.mem (memLockKeyOf (hashKey args)) = some x →
      (cacheAcquireLock (cacheSet c r t v args false false).1
        (cacheSet c r t v args false false).2 t2 args lockTtl false).1 = false) := by
  constructor
  · intro hR
    have hlk : redisGet (cacheSet c r t v args false false).2 t2
        (redisLockKeyOf (hashKey args)) = none := by
      simp [cacheSet, hR, redisDel, redisGet_serase_self]
    exact ⟨hlk, by simp [cacheAcquireLock, hR, cacheSet, redisSetNxEx,
      redisDel, redisGet_serase_self]⟩
  · intro hR x hx
    have hmem : slookup (sinsert c.mem (hashKey args) (some v, t))
        (memLockKeyOf (hashKey args)) = some x := by
      rw [slookup_sinsert_ne _ _ _ _ (memLockKey_ne_key _)]
      exact hx
    simp [cacheAcquireLock, cacheSet, hR, hmem]

/-- Witness for the amended C2, in both store variants. -/
theorem C2_set_releases_lock_amended_witness :
    (cShared.useRedis = true ∧
      (cacheAcquireLock (cacheSet cShared [] 0 "v" ["summarize", "2"] false false).1
        (cacheSet cShared [] 0 "v" ["summarize", "2"] false false).2
        1 ["summarize", "2"] 30 false).1 = true) ∧
    (cLocal.useRedis = false ∧
      slookup c2AfterAcquire.2.1.mem (memLockKeyOf (hashKey ["summarize", "2"]))
        = some (none, 0) ∧
      (cacheAcquireLock (cacheSet c2AfterAcquire.2.1 [] 1 "v" ["summarize", "2"] false false).1
        (cacheSet c2AfterAcquire.2.1 [] 1 "v" ["summarize", "2"] false false).2
        2 ["summarize", "2"] 30 false).1 = false) :=
  ⟨⟨rfl, ((C2_set_releases_lock_amended cShared [] 0 1 "v" ["summarize", "2"] 30).1 rfl).2⟩,
   ⟨rfl, by decide,
    (C2_set_releases_lock_amended c2AfterAcquire.2.1 [] 1 2 "v" ["summarize", "2"] 30).2
      rfl (none, 0) (by decide)⟩⟩

/-! ## Claim C3 — lock self-healing via ttl expiry -/

/-- Claim C3 as stated is false: in the local in-memory variant a lock
acquired at time 0 with `lock_ttl = 30` still blocks an `acquire_lock`
at time 1000, far beyond `t + lock_ttl` (the local lock never expires). -/
theorem C3_lock_expiry_cex :
    ((0:ℚ) + 30 < 1000) ∧
    c2AfterAcquire.1 = true ∧
    (cacheAcquireLock c2AfterAcquire.2.1 c2AfterAcquire.2.2 1000
      ["summarize", "2"] 30 false).1 = false := by
  refine ⟨by norm_num, by decide, by decide⟩

/-- Claim C3 (amended): in the shared-store variant a lock acquired at
time `t` with ttl `lock_ttl` and never released no longer blocks: any
fault-free `acquire_lock` at a time later than `t + lock_ttl` returns
`true`.  In the local in-memory variant the lock record ignores
`lock_ttl` and never expires: `acquire_lock` at every later time still
returns `false` until `release_lock` (or `clear`) removes it. -/
theorem C3_lock_expiry_amended {V : Type} (c : Cache V) (r : RState V)
    (t : ℚ) (args : List String) (lockTtl : ℚ)
    (hfree : lockFree c r t args) :
    (c.useRedis = true → ∀ t2 : ℚ, t + lockTtl < t2 →
      (cacheAcquireLock (cacheAcquireLock c r t args lockTtl false).2.1
        (cacheAcquireLock c r t args lockTtl false).2.2 t2 args lockTtl false).1 = true) ∧
    (c.useRedis = false → ∀ t2 : ℚ,
      (cacheAcquireLock (cacheAcquireLock c r t args lockTtl false).2.1
        (cacheAcquireLock c r t args lockTtl false).2.2 t2 args lockTtl false).1 = false) := by
  constructor
  · intro hR t2 h2
    simp only [lockFree, hR, if_true] at hfree
    have hlt : ¬ t2 < t + lockTtl := by linarith
    simp [cacheAcquireLock, hR, redisSetNxEx, hfree, redisSetEx,
      redisGet_sinsert_self, hlt]
  · intro hR t2
    simp only [lockFree, hR, Bool.false_eq_true, if_false] at hfree
    simp [cacheAcquireLock, hR, hfree, slookup_sinsert_self]

/-- Witness for the amended C3, in both store variants. -/
theorem C3_lock_expiry_amended_witness :
    (cShared.useRedis = true ∧ lockFree cShared [] 0 ["summarize", "2"] ∧
      ((0:ℚ) + 30 < 1000) ∧
      (cacheAcquireLock (cacheAcquireLock cShared [] 0 ["summarize", "2"] 30 false).2.1
        (cacheAcquireLock cShared [] 0 ["summarize", "2"] 30 false).2.2 1000
        ["summarize", "2"] 30 false).1 = true) ∧
    (cLocal.useRedis = false ∧ lockFree cLocal [] 0 ["summarize", "2"] ∧
      (cacheAcquireLock (cacheAcquireLock cLocal [] 0 ["summarize", "2"] 30 false).2.1
        (cacheAcquireLock cLocal [] 0 ["summarize", "2"] 30 false).2.2 1000
        ["summarize", "2"] 30 false).1 = false) :=
  ⟨⟨rfl, by simp [lockFree, cShared, redisGet, slookup],
    by norm_num,
    (C3_lock_expiry_amended cShared [] 0 ["summarize", "2"] 30
      (by simp [lockFree, cShared, redisGet, slookup])).1 rfl 1000 (by norm_num)⟩,
   ⟨rfl, by simp [lockFree, cLocal, slookup],
    (C3_lock_expiry_amended cLocal [] 0 ["summarize", "2"] 30
      (by simp [lockFree, cLocal, slookup])).2 rfl 1000⟩⟩

/-! ## Claim C6 — round-trip -/

/-- Claim C6: for every argument tuple and value, `set(v, a)` at time `t`
followed by `get(a)` at a time `t2` strictly before expiry
(`t2 - t < ttl_seconds`), with the store calls succeeding, returns `v` —
in both store variants. -/
theorem C6_round_trip {V : Type} (c : Cache V) (r : RState V) (t t2 : ℚ) (v : V)
    (args : List String) (w : Bool) (lt : Nat) (fg fe : Nat → Bool)
    (hAdv : t2 - t < c.ttl_seconds) :
    (c.useRedis = true →
      (cacheGet (cacheSet c r t v args false false).1 t2 args w lt false
        (fun _ => (cacheSet c r t v args false false).2) fg fe).1 = Except.ok (some v)) ∧
    (c.useRedis = false →
      (cacheGet (cacheSet c r t v args false false).1 t2 args w lt false
        (fun _ => (cacheSet c r t v args false false).2) fg fe).1 = Except.ok (some v)) := by
  constructor
  · intro hR
    have hset : cacheSet c r t v args false false
        = (c, serase (sinsert r (redisKeyOf (hashKey args))
            (RVal.data (some v), t + c.ttl_seconds)) (redisLockKeyOf (hashKey args))) := by
      simp [cacheSet, hR, redisSetEx, redisDel]
    have hget : redisGet (cacheSet c r t v args false false).2 t2
        (redisKeyOf (hashKey args)) = some (RVal.data (some v)) := by
      rw [hset]
      rw [show (c, serase (sinsert r (redisKeyOf (hashKey args))
            (RVal.data (some v), t + c.ttl_seconds)) (redisLockKeyOf (hashKey args))).2
          = serase (sinsert r (redisKeyOf (hashKey args))
            (RVal.data (some v), t + c.ttl_seconds)) (redisLockKeyOf (hashKey args)) from rfl]
      rw [redisGet_serase_ne _ _ _ _ (redisKey_ne_lockKey _), redisGet_sinsert_self]
      simp [show t2 < t + c.ttl_seconds from by linarith]
    have hc1 : (cacheSet c r t v args false false).1 = c := by simp [cacheSet, hR]
    rw [hc1, cacheGet_shared_hit _ _ _ _ _ _ _ _ v hR hget]
  · intro hR
    have hset : (cacheSet c r t v args false false).1
        = { c with mem := sinsert c.mem (hashKey args) (some v, t) } := by
      simp [cacheSet, hR]
    rw [hset]
    rw [cacheGet_local_hit { c with mem := sinsert c.mem (hashKey args) (some v, t) }
      t2 args w lt false (fun _ => (cacheSet c r t v args false false).2) fg fe
      (some v) t hR (by simp [slookup_sinsert_self]) hAdv]

/-- Witness for C6 at concrete inputs, in both store variants. -/
theorem C6_round_trip_witness :
    ((1:ℚ) - 0 < cShared.ttl_seconds ∧
      (cacheGet (cacheSet cShared [] 0 "x" ["summarize", "1"] false false).1 1
        ["summarize", "1"] true 30 false
        (fun _ => (cacheSet cShared [] 0 "x" ["summarize", "1"] false false).2)
        noF noF).1 = Except.ok (some "x")) ∧
    ((1:ℚ) - 0 < cLocal.ttl_seconds ∧
      (cacheGet (cacheSet cLocal [] 0 "x" ["summarize", "1"] false false).1 1
        ["summarize", "1"] true 30 false
        (fun _ => (cacheSet cLocal [] 0 "x" ["summarize", "1"] false false).2)
        noF noF).1 = Except.ok (some "x")) :=
  ⟨⟨by norm_num [cShared],
    (C6_round_trip cShared [] 0 1 "x" ["summarize", "1"] true 30 noF noF
      (by norm_num [cShared])).1 rfl⟩,
   ⟨by norm_num [cLocal],
    (C6_round_trip cLocal [] 0 1 "x" ["summarize", "1"] true 30 noF noF
      (by norm_num [cLocal])).2 rfl⟩⟩

/-! ## Claim C7 — entry expiry with lazy eviction -/

/-- Claim C7: `set(v, a)` at time `t` followed by `get(a)` at any time
strictly later than `t + ttl_seconds` returns absent; in the local
variant that read deletes the expired entry from the dict and leaves
every other key's binding unchanged (lazy eviction); in the shared
variant the expired Redis entry reads as absent. -/
theorem C7_expiry_lazy_eviction {V : Type} (c : Cache V) (r : RState V)
    (t t2 : ℚ) (v : V) (args : List String) (lt : Nat) (fg fe : Nat → Bool)
    (hAdv : t + c.ttl_seconds < t2) (hfg : fg 0 = false) (hfe : fe 0 = false) :
    (c.useRedis = false →
      (cacheGet (cacheSet c r t v args false false).1 t2 args true lt false
        (fun _ => r) fg fe).1 = Except.ok none ∧
      slookup (cacheGet (cacheSet c r t v args false false).1 t2 args true lt false
        (fun _ => r) fg fe).2.mem (hashKey args) = none ∧
      (∀ k', k' ≠ hashKey args →
        slookup (cacheGet (cacheSet c r t v args false false).1 t2 args true lt false
          (fun _ => r) fg fe).2.mem k'
        = slookup (cacheSet c r t v args false false).1.mem k')) ∧
    (c.useRedis = true →
      (cacheGet (cacheSet c r t v args false false).1 t2 args true lt false
        (fun _ => (cacheSet c r t v args false false).2) fg fe).1 = Except.ok none) := by
  constructor
  · intro hR
    have hset : (cacheSet c r t v args false false).1
        = { c with mem := sinsert c.mem (hashKey args) (some v, t) } := by
      simp [cacheSet, hR]
    have hstale : ¬ t2 - t < c.ttl_seconds := by linarith
    have hget : cacheGet (cacheSet c r t v args false false).1 t2 args true lt false
        (fun _ => r) fg fe
        = (Except.ok none,
           { c with mem := serase (sinsert c.mem (hashKey args) (some v, t)) (hashKey args) }) := by
      rw [hset]
      simp [cacheGet, hR, slookup_sinsert_self, hstale]
    refine ⟨by rw [hget], by rw [hget]; exact slookup_serase_self _ _, ?_⟩
    intro k' hk'
    rw [hget, hset]
    exact slookup_serase_ne _ _ _ hk'
  · intro hR
    have hset : cacheSet c r t v args false false
        = (c, serase (sinsert r (redisKeyOf (hashKey args))
            (RVal.data (some v), t + c.ttl_seconds)) (redisLockKeyOf (hashKey args))) := by
      simp [cacheSet, hR, redisSetEx, redisDel]
    have hstale : ¬ t2 < t + c.ttl_seconds := by linarith
    have hrk : redisGet (cacheSet c r t v args false false).2 t2
        (redisKeyOf (hashKey args)) = none := by
      rw [hset]
      rw [show ((c, serase (sinsert r (redisKeyOf (hashKey args))
            (RVal.data (some v), t + c.ttl_seconds)) (redisLockKeyOf (hashKey args))) :
            Cache V × RState V).2
          = serase (sinsert r (redisKeyOf (hashKey args))
            (RVal.data (some v), t + c.ttl_seconds)) (redisLockKeyOf (hashKey args)) from rfl]
      rw [redisGet_serase_ne _ _ _ _ (redisKey_ne_lockKey _), redisGet_sinsert_self]
      simp [hstale]
    have hlk : redisGet (cacheSet c r t v args false false).2 t2
        (redisLockKeyOf (hashKey args)) = none := by
      rw [hset]
      exact redisGet_serase_self _ _ _
    have hc1 : (cacheSet c r t v args false false).1 = c := by simp [cacheSet, hR]
    rw [hc1, cacheGet_shared_none _ _ _ _ _ _ _ _ hR hrk hfg hfe hlk]

/-- Witness for C7 at concrete inputs, in both store variants. -/
theorem C7_expiry_lazy_eviction_witness :
    ((0:ℚ) + cLocal.ttl_seconds < 601 ∧
      (cacheGet (cacheSet cLocal [] 0 "x" ["summarize", "1"] false false).1 601
        ["summarize", "1"] true 30 false (fun _ => []) noF noF).1 = Except.ok none ∧
      slookup (cacheGet (cacheSet cLocal [] 0 "x" ["summarize", "1"] false false).1 601
        ["summarize", "1"] true 30 false (fun _ => []) noF noF).2.mem
        (hashKey ["summarize", "1"]) = none) ∧
    ((0:ℚ) + cShared.ttl_seconds < 601 ∧
      (cacheGet (cacheSet cShared [] 0 "x" ["summarize", "1"] false false).1 601
        ["summarize", "1"] true 30 false
        (fun _ => (cacheSet cShared [] 0 "x" ["summarize", "1"] false false).2)
        noF noF).1 = Except.ok none) :=
  ⟨⟨by norm_num [cLocal],
    ((C7_expiry_lazy_eviction cLocal [] 0 601 "x" ["summarize", "1"] 30 noF noF
      (by norm_num [cLocal]) rfl rfl).1 rfl).1,
    ((C7_expiry_lazy_eviction cLocal [] 0 601 "x" ["summarize", "1"] 30 noF noF
      (by norm_num [cLocal]) rfl rfl).1 rfl).2.1⟩,
   ⟨by norm_num [cShared],
    (C7_expiry_lazy_eviction cShared [] 0 601 "x" ["summarize", "1"] 30 noF noF
      (by norm_num [cShared]) rfl rfl).2 rfl⟩⟩

/-! ## Claim C4 — backing-store errors at the cache boundary -/

/-- Claim C4 as stated is false: the initial Redis read inside
`QueryCache.get` (source line 115) is not wrapped in `try/except`, so a
store error there propagates out of the cache operation instead of being
treated as a miss. -/
theorem C4_errors_swallowed_cex :
    (cacheGet cShared 0 ["summarize", "1"] true 30 true (fun _ => []) noF noF).1
      = Except.error () := rfl

/-- Claim C4 (amended): in the shared-store variant, `set`,
`acquire_lock`, `release_lock`, `clear` and `get_cache_count` swallow
store faults — `set` degrades to a best-effort in-memory write,
`acquire_lock` returns `false`, `release_lock` and `clear` leave the
store untouched (`clear` still empties the in-process dict), and
`get_cache_count` falls back to the dict size; `get` swallows only JSON
decode failures (returning absent), while a store fault in its
unprotected read or poll propagates. -/
theorem C4_errors_swallowed_amended {V : Type} (c : Cache V) (r : RState V)
    (t : ℚ) (v : V) (args : List String) (lockTtl : ℚ) (fDel : Bool)
    (hR : c.useRedis = true) :
    cacheSet c r t v args true fDel
      = ({ c with mem := sinsert c.mem (hashKey args) (some v, t) }, r) ∧
    cacheAcquireLock c r t args lockTtl true = (false, c, r) ∧
    cacheReleaseLock c r args true = (c, r) ∧
    cacheClear c r true = ({ c with mem := [] }, r) ∧
    cacheGetCount c r t true = c.mem.length ∧
    (∀ (renv : Nat → RState V) (fg fe : Nat → Bool) (w : Bool) (lt : Nat),
      redisGet (renv 0) t (redisKeyOf (hashKey args)) = some (RVal.data none) →
      (cacheGet c t args w lt false renv fg fe).1 = Except.ok none) := by
  refine ⟨by simp [cacheSet, hR], by simp [cacheAcquireLock, hR],
    by simp [cacheReleaseLock, hR], by simp [cacheClear, hR],
    by simp [cacheGetCount, hR], ?_⟩
  intro renv fg fe w lt hrk
  simp [cacheGet, hR, hrk, decodeRVal]

/-- Witness for the amended C4 at concrete inputs. -/
theorem C4_errors_swallowed_amended_witness :
    cShared.useRedis = true ∧
    cacheAcquireLock cShared [] 0 ["summarize", "1"] 30 true = (false, cShared, []) ∧
    redisGet [(redisKeyOf (hashKey ["summarize", "1"]), (RVal.data none, 10))] 0
      (redisKeyOf (hashKey ["summarize", "1"])) = some (RVal.data (none : Option String)) ∧
    (cacheGet cShared 0 ["summarize", "1"] true 30 false
      (fun _ => [(redisKeyOf (hashKey ["summarize", "1"]), (RVal.data none, 10))])
      noF noF).1 = Except.ok none :=
  ⟨rfl,
   (C4_errors_swallowed_amended cShared [] 0 "x" ["summarize", "1"] 30 false rfl).2.1,
   by simp [redisGet, slookup],
   (C4_errors_swallowed_amended cShared [] 0 "x" ["summarize", "1"] 30 false rfl).2.2.2.2.2
     (fun _ => [(redisKeyOf (hashKey ["summarize", "1"]), (RVal.data none, 10))])
     noF noF true 30 (by simp [redisGet, slookup])⟩

/-! ## Claim C10 — the shared variant never reads the in-process dict -/

/-- Claim C10: while the shared-store variant is active, `get` never
consults the in-process dict — its result is independent of the dict's
contents — and consequently a value that `set` wrote into the in-memory
fallback map (because the Redis write raised) is not returned by a
subsequent fault-free `get` for that key: with the Redis keyspace still
lacking the entry, `get` reports absent. -/
theorem C10_shared_get_ignores_mem {V : Type} :
    (∀ (ttl : ℚ) (m1 m2 : MemCache V) (t : ℚ) (args : List String) (w : Bool)
      (lt : Nat) (f0 : Bool) (renv : Nat → RState V) (fg fe : Nat → Bool),
      (cacheGet { ttl_seconds := ttl, mem := m1, useRedis := true } t args w lt f0 renv fg fe).1
        = (cacheGet { ttl_seconds := ttl, mem := m2, useRedis := true } t args w lt f0 renv fg fe).1) ∧
    (∀ (c : Cache V) (r : RState V) (t t2 : ℚ) (v : V) (args : List String)
      (lt : Nat) (fg fe : Nat → Bool),
      c.useRedis = true →
      slookup r (redisKeyOf (hashKey args)) = none →
      slookup r (redisLockKeyOf (hashKey args)) = none →
      fg 0 = false → fe 0 = false →
      (cacheSet c r t v args true false).2 = r ∧
      slookup (cacheSet c r t v args true false).1.mem (hashKey args) = some (some v, t) ∧
      (cacheGet (cacheSet c r t v args true false).1 t2 args true lt false
        (fun _ => (cacheSet c r t v args true false).2) fg fe).1 = Except.ok none) := by
  constructor
  · intro ttl m1 m2 t args w lt f0 renv fg fe
    cases f0 with
    | true => rfl
    | false =>
      cases hget : redisGet (renv 0) t (redisKeyOf (hashKey args)) with
      | some rv => simp [cacheGet, hget]
      | none =>
        cases w with
        | true => simp [cacheGet, hget]
        | false => simp [cacheGet, hget]
  · intro c r t t2 v args lt fg fe hR hrk hlk hfg hfe
    have hset : cacheSet c r t v args true false
        = ({ c with mem := sinsert c.mem (hashKey args) (some v, t) }, r) := by
      simp [cacheSet, hR]
    refine ⟨by rw [hset], by rw [hset]; simp [slookup_sinsert_self], ?_⟩
    rw [hset]
    rw [cacheGet_shared_none _ _ _ _ _ _ _ _ (by simpa using hR)
      (redisGet_of_slookup_none _ _ _ hrk) hfg hfe
      (redisGet_of_slookup_none _ _ _ hlk)]

/-- Witness for C10 at concrete inputs. -/
theorem C10_shared_get_ignores_mem_witness :
    cShared.useRedis = true ∧
    slookup ([] : RState String) (redisKeyOf (hashKey ["summarize", "1"])) = none ∧
    (cacheGet (cacheSet cShared [] 0 "x" ["summarize", "1"] true false).1 1
      ["summarize", "1"] true 30 false
      (fun _ => (cacheSet cShared [] 0 "x" ["summarize", "1"] true false).2)
      noF noF).1 = Except.ok none :=
  ⟨rfl, rfl,
   ((C10_shared_get_ignores_mem.2 cShared [] 0 1 "x" ["summarize", "1"] 30 noF noF
     rfl rfl rfl rfl rfl).2.2)⟩

/-! ## Claim C8 — key hashing -/

/-- Claim C8 as stated is false: the hexadecimal MD5 key has fixed length
32, so the key space is finite while well-formed tuples are not — some
two distinct well-formed tuples must share a key (the "collision-free"
conclusion cannot hold for every pair, only the joined inputs are
collision-free). -/
theorem C8_key_hashing_cex :
    ¬ (∀ a b : List String, WFArgs a → WFArgs b → a ≠ b → hashKey a ≠ hashKey b) := by
  intro h
  obtain ⟨m, n, hmn, heq⟩ := Finite.exists_ne_map_eq_of_infinite
    (fun k : ℕ =>
      (⟨digestNat (strBytes (joinArgs (aTuple k))), digestNat_lt _⟩ : Fin (256 ^ 16)))
  have hdig : digestNat (strBytes (joinArgs (aTuple m)))
      = digestNat (strBytes (joinArgs (aTuple n))) := congrArg Fin.val heq
  have hkey : hashKey (aTuple m) = hashKey (aTuple n) :=
    digestNat_eq_md5hex _ _ hdig
  exact h (aTuple m) (aTuple n) (aTuple_wf m) (aTuple_wf n)
    (fun hh => hmn (aTuple_inj hh)) hkey

/-- Claim C8 (amended): hashing is deterministic — hashing a tuple twice
yields the same key, of fixed length 32 — and for every two distinct
well-formed tuples the delimiter-joined strings fed to the digest differ
(the join is injective when the delimiter appears in no argument);
distinct keys follow only up to digest collisions, which exist because
the digest is fixed-length. -/
theorem C8_key_hashing_amended :
    (∀ a : List String, hashKey a = hashKey a ∧ (hashKey a).length = 32) ∧
    (∀ a b : List String, WFArgs a → WFArgs b → a ≠ b → joinArgs a ≠ joinArgs b) := by
  constructor
  · intro a
    exact ⟨rfl, md5hex_length _⟩
  · intro a b wfa wfb hne hj
    exact hne (joinArgs_inj a b wfa wfb hj)

/-- Witness for the amended C8 at concrete inputs. -/
theorem C8_key_hashing_amended_witness :
    (hashKey ["summarize", "1"]).length = 32 ∧
    WFArgs ["summarize", "1"] ∧ WFArgs ["summarize", "2"] ∧
    (["summarize", "1"] : List String) ≠ ["summarize", "2"] ∧
    joinArgs ["summarize", "1"] ≠ joinArgs ["summarize", "2"] :=
  ⟨(C8_key_hashing_amended.1 ["summarize", "1"]).2,
   by decide, by decide, by decide,
   C8_key_hashing_amended.2 ["summarize", "1"] ["summarize", "2"]
     (by decide) (by decide) (by decide)⟩

/-! ## Claim C9 — bounded poll of losing acquirers -/

/-- Claim C9: a caller that fails to acquire the lock polls the cache
entry at a fixed half-second interval within the bounded `lock_timeout`
window: the final poll index never exceeds `2 * lock_timeout` iterations
past the start (so total wait is at most `lock_timeout` seconds); the
poll returns the entry as soon as it appears; it stops early (reporting
absent, so the caller proceeds to compute) as soon as the lock record
disappears; if the whole window elapses with the lock held and no entry,
it reports absent after exactly the full window; and `get` on a miss
with waiting enabled defers to exactly this poll. -/
theorem C9_bounded_poll {V : Type} :
    (∀ (rk lk : String) (t : ℚ) (renv : Nat → RState V) (fg fe : Nat → Bool)
      (fuel i : Nat), (pollLoop rk lk t renv fg fe fuel i).2 ≤ i + fuel) ∧
    (∀ (rk lk : String) (t : ℚ) (renv : Nat → RState V) (fg fe : Nat → Bool)
      (fuel i : Nat) (v : V), 0 < fuel → fg i = false →
      redisGet (renv i) (t + i / 2) rk = some (RVal.data (some v)) →
      pollLoop rk lk t renv fg fe fuel i = (Except.ok (some v), i)) ∧
    (∀ (rk lk : String) (t : ℚ) (renv : Nat → RState V) (fg fe : Nat → Bool)
      (fuel i : Nat), fg i = false →
      redisGet (renv i) (t + i / 2) rk = none → fe i = false →
      redisGet (renv i) (t + i / 2) lk = none →
      pollLoop rk lk t renv fg fe fuel i = (Except.ok none, i)) ∧
    (∀ (rk lk : String) (t : ℚ) (renv : Nat → RState V) (fg fe : Nat → Bool)
      (fuel i : Nat),
      (∀ j, j < i + fuel → i ≤ j → fg j = false ∧ fe j = false ∧
        redisGet (renv j) (t + j / 2) rk = none ∧
        (redisGet (renv j) (t + j / 2) lk).isSome = true) →
      pollLoop rk lk t renv fg fe fuel i = (Except.ok none, i + fuel)) ∧
    (∀ (c : Cache V) (t : ℚ) (args : List String) (lt : Nat)
      (renv : Nat → RState V) (fg fe : Nat → Bool), c.useRedis = true →
      redisGet (renv 0) t (redisKeyOf (hashKey args)) = none →
      cacheGet c t args true lt false renv fg fe
        = ((pollLoop (redisKeyOf (hashKey args)) (redisLockKeyOf (hashKey args))
            t renv fg fe (2 * lt) 0).1, c)) := by
  refine ⟨?_, ?_, ?_, ?_, ?_⟩
  · intro rk lk t renv fg fe fuel i
    exact pollLoop_index_le rk lk t renv fg fe fuel i
  · intro rk lk t renv fg fe fuel i v hfuel hfg hrk
    exact pollLoop_found rk lk t renv fg fe fuel i v hfuel hfg hrk
  · intro rk lk t renv fg fe fuel i hfg hrk hfe hlk
    exact pollLoop_break rk lk t renv fg fe fuel i hfg hrk hfe hlk
  · intro rk lk t renv fg fe fuel i h
    exact pollLoop_timeout rk lk t renv fg fe fuel i h
  · intro c t args lt renv fg fe hR hrk
    simp [cacheGet, hR, hrk]

/-- The Redis keyspace of a worker holding a long-lived lock on key
`"k"`, used by the C9 witness. -/
def c9Locked : RState String := [("l", (RVal.lockMark, 1000))]

/-- Witness for C9: every conjunct instantiated at concrete inputs. -/
theorem C9_bounded_poll_witness :
    (pollLoop "k" "l" 0 (fun _ => ([] : RState String)) noF noF 60 0).2 ≤ 0 + 60 ∧
    (0 < 60 ∧ noF 0 = false ∧
      redisGet [("k", (RVal.data (some "x"), 100))] ((0:ℚ) + (0:Nat) / 2) "k"
        = some (RVal.data (some "x")) ∧
      pollLoop "k" "l" 0 (fun _ => [("k", (RVal.data (some "x"), 100))]) noF noF 60 0
        = (Except.ok (some "x"), 0)) ∧
    (pollLoop "k" "l" 0 (fun _ => ([] : RState String)) noF noF 60 0
      = (Except.ok none, 0)) ∧
    ((∀ j, j < 0 + 4 → 0 ≤ j → noF j = false ∧ noF j = false ∧
        redisGet c9Locked ((0:ℚ) + j / 2) "k" = none ∧
        (redisGet c9Locked ((0:ℚ) + j / 2) "l").isSome = true) ∧
      pollLoop "k" "l" 0 (fun _ => c9Locked) noF noF 4 0 = (Except.ok none, 0 + 4)) ∧
    (cShared.useRedis = true ∧
      cacheGet cShared 0 ["summarize", "1"] true 30 false (fun _ => []) noF noF
        = ((pollLoop (redisKeyOf (hashKey ["summarize", "1"]))
            (redisLockKeyOf (hashKey ["summarize", "1"])) 0 (fun _ => []) noF noF
            (2 * 30) 0).1, cShared)) :=
  ⟨(C9_bounded_poll.1 "k" "l" 0 (fun _ => []) noF noF 60 0),
   ⟨by norm_num, rfl,
    by
      have h100 : ((0:ℚ) + (0:Nat) / 2) < 100 := by norm_num
      simp [redisGet, slookup, h100],
    C9_bounded_poll.2.1 "k" "l" 0 (fun _ => [("k", (RVal.data (some "x"), 100))])
      noF noF 60 0 "x" (by norm_num) rfl
      (by
        have h100 : ((0:ℚ) + (0:Nat) / 2) < 100 := by norm_num
        simp [redisGet, slookup, h100])⟩,
   C9_bounded_poll.2.2.1 "k" "l" 0 (fun _ => []) noF noF 60 0 rfl
     (by simp [redisGet, slookup]) rfl (by simp [redisGet, slookup]),
   ⟨by
      intro j hj _
      have hjq : ((j : ℚ) / 2) < 1000 := by
        have h4 : (j : ℚ) < 4 := by exact_mod_cast (by omega : j < 0 + 4)
        linarith
      exact ⟨rfl, rfl, by simp [c9Locked, redisGet, slookup],
        by simp [c9Locked, redisGet, slookup, hjq]⟩,
    C9_bounded_poll.2.2.2.1 "k" "l" 0 (fun _ => c9Locked) noF noF 4 0
      (by
        intro j hj _
        have hjq : ((j : ℚ) / 2) < 1000 := by
          have h4 : (j : ℚ) < 4 := by exact_mod_cast (by omega : j < 0 + 4)
          linarith
        exact ⟨rfl, rfl, by simp [c9Locked, redisGet, slookup],
          by simp [c9Locked, redisGet, slookup, hjq]⟩)⟩,
   ⟨rfl,
    C9_bounded_poll.2.2.2.2 cShared 0 ["summarize", "1"] 30 (fun _ => []) noF noF
      rfl rfl⟩⟩

/-! ## Claim C5 — lock release on the handler's exit paths -/

/-- The oracle of a `summarize_chapter` run in which every store call
succeeds; only the collaborators (retrieval, LLM) may raise. -/
def noFaultO {V : Type} (fetch : Except Unit (List String)) (llm : Except Unit V) :
    SumOracles V :=
  { fGetA0 := false, fGetAg := noF, fGetAe := noF, fAcq := false,
    fGetB0 := false, fGetBg := noF, fGetBe := noF,
    fSet := false, fSetDel := false, fRel := false,
    fetchDocs := fetch, llmResp := llm }

/-- In the local variant, a fresh key (no entry, no lock) makes
`summarize_chapter` miss the cache, win the lock, and enter the body. -/
theorem summarize_trace_local {V : Type} (tv : V → Bool) (est : String → Nat) (nc : V)
    (c : Cache V) (r : RState V) (t : ℚ) (q : String)
    (fetch : Except Unit (List String)) (llm : Except Unit V)
    (hR : c.useRedis = false)
    (hk : slookup c.mem (hashKey ["summarize", q]) = none)
    (hl : slookup c.mem (memLockKeyOf (hashKey ["summarize", q])) = none) :
    summarizeChapter tv est nc c r t q (noFaultO fetch llm)
      = sumBody est nc
          { c with mem := sinsert c.mem (memLockKeyOf (hashKey ["summarize", q])) (none, t) }
          r t q (noFaultO fetch llm) true := by
  have hget := cacheGet_local_none c t ["summarize", q] true 30 false (fun _ => r)
    noF noF hR hk
  simp only [summarizeChapter, noFaultO]
  rw [hget]
  simp [optTruthy, sumAfterCache, cacheAcquireLock, noFaultO, hR, hl]

/-- In the shared variant, a fresh key makes `summarize_chapter` miss the
cache, win the lock via `SETNX` (ttl 30), and enter the body. -/
theorem summarize_trace_shared {V : Type} (tv : V → Bool) (est : String → Nat) (nc : V)
    (c : Cache V) (r : RState V) (t : ℚ) (q : String)
    (fetch : Except Unit (List String)) (llm : Except Unit V)
    (hR : c.useRedis = true)
    (hk : slookup r (redisKeyOf (hashKey ["summarize", q])) = none)
    (hl : slookup r (redisLockKeyOf (hashKey ["summarize", q])) = none) :
    summarizeChapter tv est nc c r t q (noFaultO fetch llm)
      = sumBody est nc c
          (sinsert r (redisLockKeyOf (hashKey ["summarize", q])) (RVal.lockMark, t + 30))
          t q (noFaultO fetch llm) true := by
  have hget := cacheGet_shared_none c t ["summarize", q] true 30 (fun _ => r)
    noF noF hR (redisGet_of_slookup_none _ _ _ hk) rfl rfl
    (redisGet_of_slookup_none _ _ _ hl)
  simp only [summarizeChapter, noFaultO]
  rw [hget]
  simp [optTruthy, sumAfterCache, cacheAcquireLock, noFaultO, hR, redisSetNxEx,
    redisGet_of_slookup_none _ t _ hl, redisSetEx]

/-- Claim C5 as stated is false: with the local variant, a fresh key, and
document retrieval raising, `summarize_chapter` propagates the error
while the lock record acquired by this very invocation is still present
in the final state (the fetch happens before the `try/finally`). -/
theorem C5_lock_release_cex :
    (cacheAcquireLock cLocal [] 0 ["summarize", "1"] 30 false).1 = true ∧
    (summarizeChapter (fun _ => true) String.length "NC" cLocal [] 0 "1"
      (noFaultO (Except.error ()) (Except.ok "R"))).1 = Except.error () ∧
    slookup (summarizeChapter (fun _ => true) String.length "NC" cLocal [] 0 "1"
      (noFaultO (Except.error ()) (Except.ok "R"))).2.1.mem
      (memLockKeyOf (hashKey ["summarize", "1"])) = some (none, 0) := by
  refine ⟨by decide, rfl, by decide⟩

/-- Claim C5 (amended): starting from a fresh key (no cache entry, no
lock) with all store calls succeeding, the owning `summarize_chapter`
invocation releases the coalescing lock on the exit paths inside the
`try/finally` — LLM failure and success — in both store variants; on the
early no-content return the lock is removed only in the shared variant
(as a side effect of `set`), while the local variant leaves the lock
record in place; and when document retrieval raises (before the `try`),
the lock record is left in place in both variants, to die only by its
ttl in the shared variant. -/
theorem C5_lock_release_amended {V : Type} (tv : V → Bool) (est : String → Nat)
    (nc : V) (c : Cache V) (r : RState V) (t : ℚ) (q : String)
    (fetch : Except Unit (List String)) (llm : Except Unit V) :
    (c.useRedis = false →
      slookup c.mem (hashKey ["summarize", q]) = none →
      slookup c.mem (memLockKeyOf (hashKey ["summarize", q])) = none →
      (∀ docs, fetch = Except.ok docs →
        (selectDocs est (sortByLenDesc (docs.filter (fun d => 50 < (pyStrip d).length))) 0).isEmpty = false →
        llm = Except.error () →
        (summarizeChapter tv est nc c r t q (noFaultO fetch llm)).1 = Except.error () ∧
        slookup (summarizeChapter tv est nc c r t q (noFaultO fetch llm)).2.1.mem
          (memLockKeyOf (hashKey ["summarize", q])) = none) ∧
      (∀ docs resp, fetch = Except.ok docs →
        (selectDocs est (sortByLenDesc (docs.filter (fun d => 50 < (pyStrip d).length))) 0).isEmpty = false →
        llm = Except.ok resp →
        (summarizeChapter tv est nc c r t q (noFaultO fetch llm)).1 = Except.ok resp ∧
        slookup (summarizeChapter tv est nc c r t q (noFaultO fetch llm)).2.1.mem
          (memLockKeyOf (hashKey ["summarize", q])) = none) ∧
      (∀ docs, fetch = Except.ok docs →
        (selectDocs est (sortByLenDesc (docs.filter (fun d => 50 < (pyStrip d).length))) 0).isEmpty = true →
        (summarizeChapter tv est nc c r t q (noFaultO fetch llm)).1 = Except.ok nc ∧
        slookup (summarizeChapter tv est nc c r t q (noFaultO fetch llm)).2.1.mem
          (memLockKeyOf (hashKey ["summarize", q])) = some (none, t)) ∧
      (fetch = Except.error () →
        (summarizeChapter tv est nc c r t q (noFaultO fetch llm)).1 = Except.error () ∧
        slookup (summarizeChapter tv est nc c r t q (noFaultO fetch llm)).2.1.mem
          (memLockKeyOf (hashKey ["summarize", q])) = some (none, t))) ∧
    (c.useRedis = true →
      slookup r (redisKeyOf (hashKey ["summarize", q])) = none →
      slookup r (redisLockKeyOf (hashKey ["summarize", q])) = none →
      (∀ docs, fetch = Except.ok docs →
        (selectDocs est (sortByLenDesc (docs.filter (fun d => 50 < (pyStrip d).length))) 0).isEmpty = false →
        llm = Except.error () →
        (summarizeChapter tv est nc c r t q (noFaultO fetch llm)).1 = Except.error () ∧
        slookup (summarizeChapter tv est nc c r t q (noFaultO fetch llm)).2.2
          (redisLockKeyOf (hashKey ["summarize", q])) = none) ∧
      (∀ docs resp, fetch = Except.ok docs →
        (selectDocs est (sortByLenDesc (docs.filter (fun d => 50 < (pyStrip d).length))) 0).isEmpty = false →
        llm = Except.ok resp →
        (summarizeChapter tv est nc c r t q (noFaultO fetch llm)).1 = Except.ok resp ∧
        slookup (summarizeChapter tv est nc c r t q (noFaultO fetch llm)).2.2
          (redisLockKeyOf (hashKey ["summarize", q])) = none) ∧
      (∀ docs, fetch = Except.ok docs →
        (selectDocs est (sortByLenDesc (docs.filter (fun d => 50 < (pyStrip d).length))) 0).isEmpty = true →
        (summarizeChapter tv est nc c r t q (noFaultO fetch llm)).1 = Except.ok nc ∧
        slookup (summarizeChapter tv est nc c r t q (noFaultO fetch llm)).2.2
          (redisLockKeyOf (hashKey ["summarize", q])) = none) ∧
      (fetch = Except.error () →
        (summarizeChapter tv est nc c r t q (noFaultO fetch llm)).1 = Except.error () ∧
        slookup (summarizeChapter tv est nc c r t q (noFaultO fetch llm)).2.2
          (redisLockKeyOf (hashKey ["summarize", q])) = some (RVal.lockMark, t + 30))) := by
  constructor
  · intro hR hk hl
    have htr := summarize_trace_local tv est nc c r t q fetch llm hR hk hl
    refine ⟨?_, ?_, ?_, ?_⟩
    · intro docs hf hsel hllm
      rw [htr]
      subst hf
      subst hllm
      simp [sumBody, noFaultO, hsel, cacheReleaseLock, hR, slookup_sinsert_self,
        slookup_serase_self]
    · intro docs resp hf hsel hllm
      rw [htr]
      subst hf
      subst hllm
      simp [sumBody, noFaultO, hsel, cacheReleaseLock, cacheSet, hR,
        slookup_sinsert_self, slookup_serase_self,
        slookup_sinsert_ne _ _ _ _ (memLockKey_ne_key _)]
    · intro docs hf hsel
      rw [htr]
      subst hf
      simp [sumBody, noFaultO, hsel, cacheSet, hR, slookup_sinsert_self,
        slookup_sinsert_ne _ _ _ _ (memLockKey_ne_key _)]
    · intro hf
      rw [htr]
      subst hf
      simp [sumBody, noFaultO, slookup_sinsert_self]
  · intro hR hk hl
    have htr := summarize_trace_shared tv est nc c r t q fetch llm hR hk hl
    refine ⟨?_, ?_, ?_, ?_⟩
    · intro docs hf hsel hllm
      rw [htr]
      subst hf
      subst hllm
      simp [sumBody, noFaultO, hsel, cacheReleaseLock, hR, redisDel,
        slookup_serase_self]
    · intro docs resp hf hsel hllm
      rw [htr]
      subst hf
      subst hllm
      simp [sumBody, noFaultO, hsel, cacheReleaseLock, cacheSet, hR, redisDel,
        redisSetEx, slookup_serase_self]
    · intro docs hf hsel
      rw [htr]
      subst hf
      simp [sumBody, noFaultO, hsel, cacheSet, hR, redisDel, redisSetEx,
        slookup_serase_self]
    · intro hf
      rw [htr]
      subst hf
      simp [sumBody, noFaultO, slookup_sinsert_self]

/-- A document long enough to survive the `> 50` cleaning filter. -/
def longDoc : String := String.mk (List.replicate 60 'a')

/-- Witness for the amended C5: the LLM-success path at concrete inputs,
in both store variants (lock released), and the local-variant
retrieval-failure path (lock retained). -/
theorem C5_lock_release_amended_witness :
    (cLocal.useRedis = false ∧
      (selectDocs (fun _ => 0) (sortByLenDesc ([longDoc].filter
        (fun d => 50 < (pyStrip d).length))) 0).isEmpty = false ∧
      (summarizeChapter (fun _ => true) (fun _ => 0) "NC" cLocal [] 0 "1"
        (noFaultO (Except.ok [longDoc]) (Except.ok "R"))).1 = Except.ok "R" ∧
      slookup (summarizeChapter (fun _ => true) (fun _ => 0) "NC" cLocal [] 0 "1"
        (noFaultO (Except.ok [longDoc]) (Except.ok "R"))).2.1.mem
        (memLockKeyOf (hashKey ["summarize", "1"])) = none) ∧
    (cShared.useRedis = true ∧
      (summarizeChapter (fun _ => true) (fun _ => 0) "NC" cShared [] 0 "1"
        (noFaultO (Except.ok [longDoc]) (Except.ok "R"))).1 = Except.ok "R" ∧
      slookup (summarizeChapter (fun _ => true) (fun _ => 0) "NC" cShared [] 0 "1"
        (noFaultO (Except.ok [longDoc]) (Except.ok "R"))).2.2
        (redisLockKeyOf (hashKey ["summarize", "1"])) = none) ∧
    (slookup (summarizeChapter (fun _ => true) (fun _ => 0) "NC" cLocal [] 0 "1"
        (noFaultO (Except.error ()) (Except.ok "R"))).2.1.mem
      (memLockKeyOf (hashKey ["summarize", "1"])) = some (none, 0)) :=
  ⟨⟨rfl, by decide,
    ((C5_lock_release_amended (fun _ => true) (fun _ => 0) "NC" cLocal [] 0 "1"
      (Except.ok [longDoc]) (Except.ok "R")).1 rfl rfl rfl).2.1 [longDoc] "R" rfl
      (by decide) rfl⟩,
   ⟨rfl,
    ((C5_lock_release_amended (fun _ => true) (fun _ => 0) "NC" cShared [] 0 "1"
      (Except.ok [longDoc]) (Except.ok "R")).2 rfl rfl rfl).2.1 [longDoc] "R" rfl
      (by decide) rfl⟩,
   (((C5_lock_release_amended (fun _ => true) (fun _ => 0) "NC" cLocal [] 0 "1"
      (Except.error ()) (Except.ok "R")).1 rfl rfl rfl).2.2.2 rfl).2⟩

end AITutor
